import Mathlib

/-!
# Verification of the task-management list pipeline, validation and repository

Shallow embedding of `src/App.jsx`. Validated tasks (§3/§6 of the spec: all
six fields are strings) are modelled by `Task`; records loaded from storage,
which are not re-validated and may lack fields, are modelled by `RawTask`
with optional fields. JavaScript's stable `Array.prototype.sort` (stability
is mandated by ES2019) is modelled by `List.insertionSort`, a stable sort,
applied to the relation "comparator(a, b) ≤ 0" derived from the comparator
in `sortedTasks`. `JSON.parse` is a platform primitive, so `loadTasks`
abstracts over the parse function; a parse result of `none` models a thrown
exception.
-/

namespace TaskApp

/-- JavaScript `String.prototype.toLowerCase`, modelled per character on the
underlying character list. -/
def jsToLower (s : String) : String :=
  ⟨s.data.map Char.toLower⟩

/-- Drop leading and trailing whitespace from a character list. -/
def trimChars (l : List Char) : List Char :=
  ((l.dropWhile Char.isWhitespace).reverse.dropWhile Char.isWhitespace).reverse

/-- JavaScript `String.prototype.trim`: strips leading and trailing
whitespace. -/
def jsTrim (s : String) : String :=
  ⟨trimChars s.data⟩

/-- A validated task record: field names and types as persisted (§6). -/
structure Task where
  id : String
  title : String
  description : String
  status : String
  priority : String
  dueDate : String
deriving DecidableEq, Repr

/-- A record as loaded from storage, trusted as-is: any field may be absent
(`none` models a missing/`undefined` property). -/
structure RawTask where
  id : Option String
  title : Option String
  description : Option String
  status : Option String
  priority : Option String
  dueDate : Option String
deriving DecidableEq, Repr

/-! ## Validation (`validateTaskForm`, App.jsx lines 139–156) -/

/-- The candidate form values that `validateTaskForm` inspects. -/
structure FormValues where
  title : String
  description : String
  dueDate : String
deriving DecidableEq, Repr

/-- The per-field error map returned by `validateTaskForm`; `none` means the
field key is absent from the returned object. -/
structure FormErrors where
  title : Option String
  description : Option String
  dueDate : Option String
deriving DecidableEq, Repr

/-- The validation rule `validateTaskForm` from App.jsx: `!values.title` is emptiness of the
string, the second title check is `values.title.length < 3` on the
untrimmed title. -/
def validateTaskForm (v : FormValues) : FormErrors :=
  { title :=
      if v.title = "" ∨ jsTrim v.title = "" then some "Title is required."
      else if v.title.length < 3 then some "Title must be at least 3 characters."
      else none
    description :=
      if v.description = "" ∨ jsTrim v.description = "" then some "Description is required."
      else none
    dueDate :=
      if v.dueDate = "" then some "Due Date is required."
      else none }

/-! ## Repository operations (`useTasks`, App.jsx lines 46–83) -/

/-- Repository `updateTask`: `prev.map(task => task.id === updatedTask.id ? updatedTask : task)`. -/
def updateTask (u : Task) (l : List Task) : List Task :=
  l.map (fun t => if t.id = u.id then u else t)

/-- Repository `deleteTask`: `prev.filter(task => task.id !== taskId)`. -/
def deleteTask (taskId : String) (l : List Task) : List Task :=
  l.filter (fun t => ¬ t.id = taskId)

/-- Lookup by id as done by the App (`tasks.find(t => t.id === selectedTaskId)`). -/
def findTask (taskId : String) (l : List Task) : Option Task :=
  l.find? (fun t => t.id = taskId)

/-- The `useTasks` initial state: `localStorage.getItem` yields `none` (missing
key) or a string; an empty string is falsy so the ternary yields `[]`
without parsing; a parse failure (`parse s = none` models the thrown
exception) is caught and yields `[]`. -/
def loadTasks (parse : String → Option (List RawTask)) (stored : Option String) :
    List RawTask :=
  match stored with
  | none => []
  | some s =>
    if s = "" then []
    else
      match parse s with
      | some ts => ts
      | none => []

/-! ## Sorting (`sortedTasks`, App.jsx lines 296–312) -/

/-- The four sortable column keys. -/
inductive SortKey where
  | title
  | status
  | priority
  | dueDate
deriving DecidableEq, Repr

/-- Sort direction. -/
inductive SortDir where
  | asc
  | desc
deriving DecidableEq, Repr

/-- Field access `a[sortConfig.key]` on a validated task. -/
def getKey (k : SortKey) (t : Task) : String :=
  match k with
  | SortKey.title => t.title
  | SortKey.status => t.status
  | SortKey.priority => t.priority
  | SortKey.dueDate => t.dueDate

/-- The relation "comparator(a, b) ≤ 0" of the comparator in `sortedTasks`:
for ascending order it returns -1/0 unless `aValue > bValue`, for descending
unless `aValue < bValue`. A stable sort under this relation is exactly what
the comparator produces. -/
def sortRel (k : SortKey) (d : SortDir) (a b : Task) : Prop :=
  match d with
  | SortDir.asc => getKey k a ≤ getKey k b
  | SortDir.desc => getKey k b ≤ getKey k a

instance sortRelDecidable (k : SortKey) (d : SortDir) : DecidableRel (sortRel k d) :=
  fun a b => by unfold sortRel; cases d <;> exact inferInstance

instance sortRelTotal (k : SortKey) (d : SortDir) : IsTotal Task (sortRel k d) := by
  constructor; intro a b; unfold sortRel; cases d <;> exact le_total _ _

instance sortRelTrans (k : SortKey) (d : SortDir) : IsTrans Task (sortRel k d) := by
  constructor
  intro a b c h1 h2
  unfold sortRel at *
  cases d
  · exact le_trans h1 h2
  · exact le_trans h2 h1

/-- Step `sortedTasks`: a copy of the list, stably sorted by the comparator. -/
def sortedTasks (k : SortKey) (d : SortDir) (l : List Task) : List Task :=
  List.insertionSort (sortRel k d) l

/-! ## Filtering (`filteredTasks`, App.jsx lines 314–325) -/

/-- JavaScript `hay.includes(needle)`: substring containment, decided on the
character lists. -/
def strIncludes (hay needle : String) : Bool :=
  decide (List.IsInfix needle.toList hay.toList)

/-- The per-task search predicate of `filteredTasks` on validated tasks:
the lowercased search term must occur in the lowercased title, description,
status or priority. -/
def matchesSearch (term : String) (t : Task) : Bool :=
  strIncludes (jsToLower t.title) (jsToLower term) ||
  strIncludes (jsToLower t.description) (jsToLower term) ||
  strIncludes (jsToLower t.status) (jsToLower term) ||
  strIncludes (jsToLower t.priority) (jsToLower term)

/-- Step `filteredTasks`: `if (!searchTerm) return sortedTasks` (an empty search
term short-circuits), else filter by `matchesSearch`. -/
def filteredTasks (term : String) (l : List Task) : List Task :=
  if term = "" then l else l.filter (matchesSearch term)

/-! ## Pagination (`totalPages`/`currentTasks`, App.jsx lines 327–331) -/

/-- Page size: `tasksPerPage = 5`. -/
def tasksPerPage : Nat := 5

/-- Total page count `Math.ceil(filteredTasks.length / tasksPerPage)` as a natural number. -/
def totalPages (l : List Task) : Nat :=
  (l.length + tasksPerPage - 1) / tasksPerPage

/-- The page slice `filteredTasks.slice(startIndex, startIndex + tasksPerPage)` with
`startIndex = (currentPage - 1) * tasksPerPage`. -/
def currentTasks (l : List Task) (page : Nat) : List Task :=
  (l.drop ((page - 1) * tasksPerPage)).take tasksPerPage

/-- The page-correction effect of `TaskList` (App.jsx lines 333–339). -/
def correctPage (cp tp : Nat) : Nat :=
  if tp < cp ∧ 0 < tp then tp
  else if tp = 0 then 1
  else cp

/-! ## The list pipeline as implemented vs as specified -/

/-- The implemented derivation: raw tasks are sorted first, then filtered,
then sliced; `totalPages` is computed from the filtered list. -/
def listPageImpl (l : List Task) (term : String) (k : SortKey) (d : SortDir)
    (page : Nat) : List Task × Nat :=
  let s := sortedTasks k d l
  let f := filteredTasks term s
  (currentTasks f page, totalPages f)

/-- The pipeline in the spec's order (§4.4): raw tasks → filtered-by-search →
sorted-by-key/direction → paged slice. This definition follows the spec's
words, for comparison with `listPageImpl`. -/
def listPageSpec (l : List Task) (term : String) (k : SortKey) (d : SortDir)
    (page : Nat) : List Task × Nat :=
  let f := filteredTasks term l
  let s := sortedTasks k d f
  (currentTasks s page, totalPages s)

/-! ## Raw pipeline steps on loaded, unvalidated records (claim C10) -/

/-- Field access `a[sortConfig.key] || ''` on a loaded record: a missing field is replaced
by the empty string (and `'' || ''` is `''`). -/
def getKeyRaw (k : SortKey) (t : RawTask) : String :=
  match k with
  | SortKey.title => t.title.getD ""
  | SortKey.status => t.status.getD ""
  | SortKey.priority => t.priority.getD ""
  | SortKey.dueDate => t.dueDate.getD ""

/-- The comparator relation on raw records. -/
def sortRelRaw (k : SortKey) (d : SortDir) (a b : RawTask) : Prop :=
  match d with
  | SortDir.asc => getKeyRaw k a ≤ getKeyRaw k b
  | SortDir.desc => getKeyRaw k b ≤ getKeyRaw k a

instance sortRelRawDecidable (k : SortKey) (d : SortDir) : DecidableRel (sortRelRaw k d) :=
  fun a b => by unfold sortRelRaw; cases d <;> exact inferInstance

/-- Step `sortedTasks` on loaded records: total, because the comparator guards
every field access with `|| ''`. -/
def sortedRaw (k : SortKey) (d : SortDir) (l : List RawTask) : List RawTask :=
  List.insertionSort (sortRelRaw k d) l

/-- The filter predicate of `filteredTasks` on a loaded record, with the
short-circuit evaluation order of `||`: each `task.field.toLowerCase()` is
unguarded, so an absent field makes the whole expression throw (`none`). -/
def matchesRaw (term : String) (t : RawTask) : Option Bool := do
  let a ← t.title
  if strIncludes (jsToLower a) (jsToLower term) then pure true
  else do
    let b ← t.description
    if strIncludes (jsToLower b) (jsToLower term) then pure true
    else do
      let c ← t.status
      if strIncludes (jsToLower c) (jsToLower term) then pure true
      else do
        let d ← t.priority
        pure (strIncludes (jsToLower d) (jsToLower term))

/-- The `filter` call evaluates the predicate left to right; the first thrown
exception (`none`) aborts the whole derivation. -/
def filterRawAux (term : String) : List RawTask → Option (List RawTask)
  | [] => some []
  | t :: ts => do
    let b ← matchesRaw term t
    let rest ← filterRawAux term ts
    pure (if b then t :: rest else rest)

/-- Step `filteredTasks` on loaded records: the empty search term short-circuits
before any field access, otherwise the unguarded filter runs. -/
def filteredRaw (term : String) (l : List RawTask) : Option (List RawTask) :=
  if term = "" then some l else filterRawAux term l

/-! ## Concrete sample data -/

/-- A sample validated task. -/
def sampleTask : Task :=
  { id := "a1", title := "Write report", description := "Quarterly report",
    status := "Pending", priority := "High", dueDate := "2024-05-01" }

/-- A second sample task with a distinct id. -/
def taskB : Task :=
  { id := "b2", title := "Plan sprint", description := "Sprint planning",
    status := "In Progress", priority := "Low", dueDate := "2024-06-01" }

/-- The task `sampleTask` after an edit that keeps the id. -/
def taskAv2 : Task :=
  { id := "a1", title := "Write final report", description := "Quarterly report v2",
    status := "Completed", priority := "Medium", dueDate := "2024-05-02" }

/-- A two-task collection with distinct ids. -/
def sampleListAB : List Task := [sampleTask, taskB]

/-- Twelve tasks, for the pagination example. -/
def sampleTasks12 : List Task := List.replicate 12 sampleTask

/-- A task whose priority is "High" and whose other searchable fields do not
contain "high". -/
def highTask : Task :=
  { id := "c3", title := "Review budget", description := "Annual budget",
    status := "Pending", priority := "High", dueDate := "2024-07-01" }

/-- A loaded record with a present title but an absent description. -/
def taskNoDesc : RawTask :=
  { id := some "r1", title := some "Alpha", description := none,
    status := some "Pending", priority := some "High", dueDate := some "2024-01-01" }

/-- A loaded record with every field absent. -/
def emptyRawTask : RawTask :=
  { id := none, title := none, description := none,
    status := none, priority := none, dueDate := none }

/-! ## Helper lemmas -/

theorem validateTaskForm_title_eq (v : FormValues) :
    (validateTaskForm v).title =
      if jsTrim v.title = "" then some "Title is required."
      else if v.title.length < 3 then some "Title must be at least 3 characters."
      else none := by
  show (if v.title = "" ∨ jsTrim v.title = "" then some "Title is required."
        else if v.title.length < 3 then some "Title must be at least 3 characters."
        else none) = _
  by_cases h : jsTrim v.title = ""
  · rw [if_pos (Or.inr h), if_pos h]
  · have hd : ¬ (v.title = "" ∨ jsTrim v.title = "") := by
      rintro (he | ht)
      · exact h (by rw [he]; decide)
      · exact h ht
    rw [if_neg hd, if_neg h]

theorem sortRel_of_key_eq {k : SortKey} {d : SortDir} {a b : Task}
    (h : getKey k a = getKey k b) : sortRel k d a b := by
  unfold sortRel
  cases d
  · exact le_of_eq h
  · exact le_of_eq h.symm

theorem filter_orderedInsert_of_key_eq (k : SortKey) (d : SortDir) (v : String)
    (x : Task) (hx : getKey k x = v) (l : List Task) :
    (List.orderedInsert (sortRel k d) x l).filter (fun t => decide (getKey k t = v)) =
      x :: l.filter (fun t => decide (getKey k t = v)) := by
  induction l with
  | nil => simp [List.orderedInsert, hx]
  | cons y ys ih =>
    by_cases hr : sortRel k d x y
    · rw [List.orderedInsert, if_pos hr]
      simp [List.filter_cons, hx]
    · rw [List.orderedInsert, if_neg hr]
      have hy : ¬ getKey k y = v := fun hyv =>
        hr (sortRel_of_key_eq (hx.trans hyv.symm))
      simp [List.filter_cons, hy, ih]

theorem filter_orderedInsert_of_key_ne (k : SortKey) (d : SortDir) (v : String)
    (x : Task) (hx : ¬ getKey k x = v) (l : List Task) :
    (List.orderedInsert (sortRel k d) x l).filter (fun t => decide (getKey k t = v)) =
      l.filter (fun t => decide (getKey k t = v)) := by
  induction l with
  | nil => simp [List.orderedInsert, hx]
  | cons y ys ih =>
    by_cases hr : sortRel k d x y
    · rw [List.orderedInsert, if_pos hr]
      simp [List.filter_cons, hx]
    · rw [List.orderedInsert, if_neg hr]
      simp [List.filter_cons, ih]

theorem orderedInsert_eq_cons_of_forall {α : Type} (r : α → α → Prop) [DecidableRel r]
    {x : α} {l : List α} (h : ∀ z ∈ l, r x z) : List.orderedInsert r x l = x :: l := by
  cases l with
  | nil => rfl
  | cons z zs => rw [List.orderedInsert, if_pos (h z (List.mem_cons_self z zs))]

theorem filter_orderedInsert_of_pairwise {α : Type} (r : α → α → Prop) [DecidableRel r]
    [IsTrans α r] (p : α → Bool) (x : α) (l : List α) (hl : l.Pairwise r) :
    (List.orderedInsert r x l).filter p =
      if p x then List.orderedInsert r x (l.filter p) else l.filter p := by
  induction l with
  | nil =>
    cases hpx : p x <;> simp [List.orderedInsert, hpx]
  | cons y ys ih =>
    rw [List.pairwise_cons] at hl
    obtain ⟨hy, hys⟩ := hl
    by_cases hr : r x y
    · rw [List.orderedInsert, if_pos hr]
      cases hpx : p x
      · simp [List.filter_cons, hpx]
      · cases hpy : p y
        · have hall : ∀ z ∈ ys.filter p, r x z := fun z hz =>
            IsTrans.trans x y z hr (hy z (List.mem_of_mem_filter hz))
          have hfy : List.filter p (y :: ys) = List.filter p ys := by
            simp [List.filter_cons, hpy]
          rw [if_pos rfl, hfy, orderedInsert_eq_cons_of_forall r hall]
          simp [List.filter_cons, hpx, hpy]
        · simp [List.filter_cons, hpx, hpy, List.orderedInsert, hr]
    · rw [List.orderedInsert, if_neg hr]
      cases hpx : p x
      · simp [List.filter_cons, hpx, ih hys]
      · cases hpy : p y
        · simp [List.filter_cons, hpx, hpy, ih hys]
        · simp [List.filter_cons, hpx, hpy, ih hys, List.orderedInsert, hr]

theorem filter_insertionSort {α : Type} (r : α → α → Prop) [DecidableRel r] [IsTotal α r]
    [IsTrans α r] (p : α → Bool) (l : List α) :
    (List.insertionSort r l).filter p = List.insertionSort r (l.filter p) := by
  induction l with
  | nil => rfl
  | cons x xs ih =>
    rw [List.insertionSort,
      filter_orderedInsert_of_pairwise r p x _ (List.sorted_insertionSort r xs), ih]
    cases hpx : p x <;> simp [List.filter_cons, hpx, List.insertionSort]

/-! ## Claim theorems -/

/-- C1 (counterexample): the title `"a  "` has trimmed length 1 (and is not
whitespace-only), yet `validateTaskForm` returns no title error at all,
because the length check runs on the untrimmed title — refuting the claim
that every title of trimmed length 1 or 2 yields the "at least 3
characters" error. -/
theorem C1_counterexample :
    (jsTrim "a  ").length = 1 ∧ ¬ jsTrim "a  " = "" ∧
    (validateTaskForm
        { title := "a  ", description := "desc", dueDate := "2024-05-01" }).title = none := by
  refine ⟨by decide, by decide, ?_⟩
  decide

/-- C1 (amended): `validateTaskForm` returns "Title is required." exactly
when the title is empty or whitespace-only, and otherwise returns "Title
must be at least 3 characters." exactly when the UNTRIMMED length of the
title is less than 3; a title error is absent exactly when the title is not
whitespace-only and its untrimmed length is at least 3. -/
theorem C1_title_rules (v : FormValues) :
    ((validateTaskForm v).title = some "Title is required." ↔ jsTrim v.title = "") ∧
    ((validateTaskForm v).title = some "Title must be at least 3 characters." ↔
      (¬ jsTrim v.title = "" ∧ v.title.length < 3)) ∧
    ((validateTaskForm v).title = none ↔
      (¬ jsTrim v.title = "" ∧ 3 ≤ v.title.length)) := by
  rw [validateTaskForm_title_eq]
  by_cases h1 : jsTrim v.title = ""
  · rw [if_pos h1]
    refine ⟨⟨fun _ => h1, fun _ => rfl⟩, ⟨?_, ?_⟩, ⟨?_, ?_⟩⟩
    · intro h; exact absurd (Option.some.inj h) (by decide)
    · rintro ⟨h, _⟩; exact absurd h1 h
    · intro h; exact absurd h (by simp)
    · rintro ⟨h, _⟩; exact absurd h1 h
  · rw [if_neg h1]
    by_cases h2 : v.title.length < 3
    · rw [if_pos h2]
      refine ⟨⟨?_, ?_⟩, ⟨fun _ => ⟨h1, h2⟩, fun _ => rfl⟩, ⟨?_, ?_⟩⟩
      · intro h; exact absurd (Option.some.inj h) (by decide)
      · intro h; exact absurd h h1
      · intro h; exact absurd h (by simp)
      · rintro ⟨_, h⟩; omega
    · rw [if_neg h2]
      refine ⟨⟨?_, ?_⟩, ⟨?_, ?_⟩, ⟨fun _ => ⟨h1, by omega⟩, fun _ => rfl⟩⟩
      · intro h; exact absurd h (by simp)
      · intro h; exact absurd h h1
      · intro h; exact absurd h (by simp)
      · rintro ⟨_, h⟩; exact absurd h h2

/-- C3: the startup load yields the empty collection when the key is
missing, when the stored content is the empty string, or when the parse
fails; and in every case the result is either the empty collection or the
successfully parsed one — no error is ever surfaced. -/
theorem C3_load_fallback (parse : String → Option (List RawTask)) (stored : Option String) :
    loadTasks parse none = [] ∧
    loadTasks parse (some "") = [] ∧
    (∀ s, parse s = none → loadTasks parse (some s) = []) ∧
    (loadTasks parse stored = [] ∨
      ∃ s ts, stored = some s ∧ parse s = some ts ∧ loadTasks parse stored = ts) := by
  refine ⟨rfl, by simp [loadTasks], ?_, ?_⟩
  · intro s h
    show (if s = "" then []
          else match parse s with
            | some ts => ts
            | none => []) = []
    by_cases he : s = ""
    · rw [if_pos he]
    · rw [if_neg he, h]
  · cases stored with
    | none => exact Or.inl rfl
    | some s =>
      by_cases he : s = ""
      · exact Or.inl (by simp [loadTasks, he])
      · cases hp : parse s with
        | none => exact Or.inl (by simp [loadTasks, he, hp])
        | some ts => exact Or.inr ⟨s, ts, rfl, hp, by simp [loadTasks, he, hp]⟩

/-- C3 witness: a stored string on which the parse fails loads as `[]`. -/
theorem C3_load_fallback_witness :
    loadTasks (fun _ => none) (some "not json") = [] :=
  (C3_load_fallback (fun _ => none) (some "not json")).2.2.1 "not json" rfl

/-- C5: for every page number `p ≥ 1` the displayed page is the slice
`[(p-1)*5, p*5)` of the filtered list, `totalPages` is the ceiling of
`length / 5` (characterized by its Galois property and by being 0 exactly
on the empty list), and with 12 tasks page 1 has 5 items, page 3 has 2
items and `totalPages = 3`. -/
theorem C5_pagination (l : List Task) (p : Nat) (hp : 1 ≤ p) :
    (∀ i : Nat, (currentTasks l p)[i]? =
      if i < tasksPerPage then l[(p - 1) * tasksPerPage + i]? else none) ∧
    (∀ n : Nat, totalPages l ≤ n ↔ l.length ≤ tasksPerPage * n) ∧
    (totalPages l = 0 ↔ l.length = 0) ∧
    (l.length = 12 →
      (currentTasks l 1).length = 5 ∧ (currentTasks l 3).length = 2 ∧ totalPages l = 3) := by
  refine ⟨?_, ?_, ?_, ?_⟩
  · intro i
    unfold currentTasks
    rw [List.getElem?_take]
    by_cases h : i < tasksPerPage
    · rw [if_pos h, if_pos h, List.getElem?_drop]
    · rw [if_neg h, if_neg h]
  · intro n; unfold totalPages tasksPerPage; omega
  · unfold totalPages tasksPerPage; omega
  · intro h12
    unfold currentTasks totalPages tasksPerPage
    refine ⟨?_, ?_, ?_⟩ <;> simp [List.length_take, List.length_drop, h12]

/-- C5 witness: the theorem applied to a concrete 12-task list at page 3. -/
theorem C5_pagination_witness :
    1 ≤ 3 ∧ sampleTasks12.length = 12 ∧
    (currentTasks sampleTasks12 1).length = 5 ∧
    (currentTasks sampleTasks12 3).length = 2 ∧ totalPages sampleTasks12 = 3 :=
  ⟨by decide, by decide,
    (C5_pagination sampleTasks12 3 (by decide)).2.2.2 (by decide)⟩

/-- C6: assuming the page number is at least 1 (its initial value and every
value the UI sets), the correction effect restores the invariant: it yields
1 when `totalPages` is 0, clamps to `totalPages` when the page exceeds it,
and in every case ends with `1 ≤ page ≤ totalPages` or
(`totalPages = 0` and `page = 1`). -/
theorem C6_page_correction (cp tp : Nat) (h : 1 ≤ cp) :
    (tp = 0 → correctPage cp tp = 1) ∧
    (tp < cp → 0 < tp → correctPage cp tp = tp) ∧
    ((tp = 0 ∧ correctPage cp tp = 1) ∨
      (1 ≤ correctPage cp tp ∧ correctPage cp tp ≤ tp)) := by
  unfold correctPage
  split_ifs <;> omega

/-- C6 witness: page 9 against 3 total pages is clamped to 3. -/
theorem C6_page_correction_witness :
    1 ≤ 9 ∧ correctPage 9 3 = 3 :=
  ⟨by decide, (C6_page_correction 9 3 (by decide)).2.1 (by decide) (by decide)⟩

/-- C4: the sort step is stable: for every sort key, direction and key
value, the subsequence of tasks whose value on the sort key equals that
value is the same before and after sorting — so any two tasks with equal
sort-key values keep their relative input order, ascending or descending. -/
theorem C4_sort_stability (k : SortKey) (d : SortDir) (l : List Task) (v : String) :
    (sortedTasks k d l).filter (fun t => decide (getKey k t = v)) =
      l.filter (fun t => decide (getKey k t = v)) := by
  unfold sortedTasks
  induction l with
  | nil => rfl
  | cons x xs ih =>
    rw [List.insertionSort]
    by_cases hx : getKey k x = v
    · rw [filter_orderedInsert_of_key_eq k d v x hx _, ih]
      simp [List.filter_cons, hx]
    · rw [filter_orderedInsert_of_key_ne k d v x hx _, ih]
      simp [List.filter_cons, hx]

/-- C2: the implemented derivation (sort, then filter, then slice, with
`totalPages` from the filtered list) computes exactly the spec's pipeline
(filter, then stable sort, then slice): filtering commutes with the stable
sort. -/
theorem C2_pipeline_equivalence (l : List Task) (term : String) (k : SortKey)
    (d : SortDir) (page : Nat) :
    listPageImpl l term k d page = listPageSpec l term k d page := by
  have hcomm : filteredTasks term (sortedTasks k d l) =
      sortedTasks k d (filteredTasks term l) := by
    unfold filteredTasks sortedTasks
    by_cases h : term = ""
    · simp [h]
    · rw [if_neg h, if_neg h, filter_insertionSort]
  show (currentTasks (filteredTasks term (sortedTasks k d l)) page,
        totalPages (filteredTasks term (sortedTasks k d l))) =
      (currentTasks (sortedTasks k d (filteredTasks term l)) page,
        totalPages (sortedTasks k d (filteredTasks term l)))
  rw [hcomm]

/-- C7: the empty search term returns the full unfiltered list; a non-empty
search term keeps exactly the tasks for which the lowercased term occurs as
a substring of the lowercased title, description, status, or priority. -/
theorem C7_search_filter (term : String) (l : List Task) (t : Task) :
    filteredTasks "" l = l ∧
    (¬ term = "" →
      (t ∈ filteredTasks term l ↔
        t ∈ l ∧
          (List.IsInfix (jsToLower term).toList (jsToLower t.title).toList ∨
           List.IsInfix (jsToLower term).toList (jsToLower t.description).toList ∨
           List.IsInfix (jsToLower term).toList (jsToLower t.status).toList ∨
           List.IsInfix (jsToLower term).toList (jsToLower t.priority).toList))) := by
  constructor
  · simp [filteredTasks]
  · intro h
    unfold filteredTasks
    rw [if_neg h, List.mem_filter]
    unfold matchesSearch strIncludes
    simp [Bool.or_eq_true, decide_eq_true_iff, or_assoc]

/-- C7 witness: "high" is a non-empty term and the task with priority
"High" (and no other field containing "high") is kept by the filter. -/
theorem C7_search_filter_witness :
    ¬ ("high" : String) = "" ∧ highTask ∈ filteredTasks "high" [highTask] :=
  ⟨by decide,
    ((C7_search_filter "high" [highTask] highTask).2 (by decide)).mpr
      ⟨by decide, Or.inr (Or.inr (Or.inr (by decide)))⟩⟩

theorem delete_length_of_nodup (taskId : String) (l : List Task)
    (hnd : (l.map Task.id).Nodup) (t : Task) (ht : t ∈ l) (hid : t.id = taskId) :
    (deleteTask taskId l).length + 1 = l.length := by
  induction l with
  | nil => exact absurd ht (List.not_mem_nil t)
  | cons x xs ih =>
    rw [List.map_cons, List.nodup_cons] at hnd
    obtain ⟨hx, hxs⟩ := hnd
    unfold deleteTask
    rw [List.filter_cons]
    by_cases hxid : x.id = taskId
    · rw [if_neg (by simp [hxid])]
      have hrest : deleteTask taskId xs = xs := by
        unfold deleteTask
        rw [List.filter_eq_self]
        intro u hu
        simp only [decide_eq_true_iff]
        intro he
        exact hx (by rw [hxid, ← he]; exact List.mem_map_of_mem Task.id hu)
      have hlen : (deleteTask taskId xs).length = xs.length := by rw [hrest]
      unfold deleteTask at hlen
      rw [List.length_cons]
      omega
    · have htxs : t ∈ xs := by
        rcases List.mem_cons.mp ht with he | hxs2
        · exact absurd (he ▸ hid) hxid
        · exact hxs2
      have hlen := ih hxs htxs
      unfold deleteTask at hlen
      rw [if_pos (by simp [hxid]), List.length_cons, List.length_cons]
      omega

/-- C8: `deleteTask` is idempotent; it is a no-op when no record has the
id; every survivor was present and has a different id; every record with a
different id survives; and under the id-uniqueness invariant, deleting a
present id removes exactly one record. -/
theorem C8_delete_props (taskId : String) (l : List Task) :
    deleteTask taskId (deleteTask taskId l) = deleteTask taskId l ∧
    ((∀ t ∈ l, ¬ t.id = taskId) → deleteTask taskId l = l) ∧
    (∀ t ∈ deleteTask taskId l, t ∈ l ∧ ¬ t.id = taskId) ∧
    (∀ t ∈ l, ¬ t.id = taskId → t ∈ deleteTask taskId l) ∧
    ((l.map Task.id).Nodup → ∀ t ∈ l, t.id = taskId →
      (deleteTask taskId l).length + 1 = l.length) := by
  refine ⟨?_, ?_, ?_, ?_, ?_⟩
  · unfold deleteTask
    rw [List.filter_filter]
    simp [Bool.and_self]
  · intro h
    unfold deleteTask
    rw [List.filter_eq_self]
    intro t ht
    simp [h t ht]
  · intro t ht
    unfold deleteTask at ht
    rw [List.mem_filter] at ht
    exact ⟨ht.1, by simpa using ht.2⟩
  · intro t ht hid
    unfold deleteTask
    rw [List.mem_filter]
    exact ⟨ht, by simpa using hid⟩
  · exact fun hnd t ht hid => delete_length_of_nodup taskId l hnd t ht hid

/-- C8 witness: deleting the present id "a1" from the two-task collection
with distinct ids removes exactly one record. -/
theorem C8_delete_props_witness :
    (sampleListAB.map Task.id).Nodup ∧ sampleTask ∈ sampleListAB ∧
    sampleTask.id = "a1" ∧
    (deleteTask "a1" sampleListAB).length + 1 = sampleListAB.length :=
  ⟨by decide, by decide, by decide,
    (C8_delete_props "a1" sampleListAB).2.2.2.2 (by decide) sampleTask (by decide) rfl⟩

/-- C9: after `updateTask u`, looking the id up returns exactly `u`
whenever some record had that id; the update is a no-op when no record has
the id; it preserves length; and every record with a different id is
unchanged at its original position. -/
theorem C9_update_props (u : Task) (l : List Task) :
    ((∃ t ∈ l, t.id = u.id) → findTask u.id (updateTask u l) = some u) ∧
    ((∀ t ∈ l, ¬ t.id = u.id) → updateTask u l = l) ∧
    (updateTask u l).length = l.length ∧
    (∀ (i : Nat) (h : i < l.length), ¬ (l.get ⟨i, h⟩).id = u.id →
      (updateTask u l)[i]? = l[i]?) := by
  refine ⟨?_, ?_, ?_, ?_⟩
  · intro hex
    induction l with
    | nil => obtain ⟨t, ht, _⟩ := hex; exact absurd ht (List.not_mem_nil t)
    | cons x xs ih =>
      unfold updateTask findTask
      rw [List.map_cons]
      by_cases hx : x.id = u.id
      · rw [if_pos hx]
        exact List.find?_cons_of_pos _ (by simp)
      · rw [if_neg hx]
        rw [List.find?_cons_of_neg _ (by simp [hx])]
        obtain ⟨t, ht, hid⟩ := hex
        rcases List.mem_cons.mp ht with he | hxs
        · exact absurd (he ▸ hid) hx
        · exact ih ⟨t, hxs, hid⟩
  · intro h
    unfold updateTask
    induction l with
    | nil => rfl
    | cons x xs ih =>
      rw [List.map_cons, if_neg (h x (List.mem_cons_self x xs))]
      rw [ih (fun t ht => h t (List.mem_cons_of_mem x ht))]
  · unfold updateTask
    rw [List.length_map]
  · intro i h hne
    unfold updateTask
    rw [List.getElem?_map, List.getElem?_eq_getElem h]
    show some (if (l.get ⟨i, h⟩).id = u.id then u else l.get ⟨i, h⟩) = some (l.get ⟨i, h⟩)
    rw [if_neg hne]

/-- C9 witness: updating the collection with an edited task of id "a1"
makes lookup by "a1" return exactly the edited task. -/
theorem C9_update_props_witness :
    (∃ t ∈ sampleListAB, t.id = taskAv2.id) ∧
    findTask taskAv2.id (updateTask taskAv2 sampleListAB) = some taskAv2 :=
  ⟨⟨sampleTask, by decide, by decide⟩,
    (C9_update_props taskAv2 sampleListAB).1 ⟨sampleTask, by decide, by decide⟩⟩

/-- C10: the two pipeline steps treat absent fields asymmetrically. The
sort comparison substitutes the empty string for every absent key value and
is total (it always yields a list of the same length), while the filter
applies `toLowerCase` unguarded: on a list containing a loaded record with
an absent description and a search term not matching its title, the filter
throws (models as `none`) instead of producing a result. -/
theorem C10_raw_field_asymmetry :
    (∀ k : SortKey, getKeyRaw k emptyRawTask = "") ∧
    (∀ (k : SortKey) (d : SortDir) (l : List RawTask),
      (sortedRaw k d l).length = l.length) ∧
    sortedRaw SortKey.dueDate SortDir.asc [taskNoDesc] = [taskNoDesc] ∧
    filteredRaw "zzz" [taskNoDesc] = none := by
  refine ⟨?_, ?_, rfl, ?_⟩
  · intro k; cases k <;> rfl
  · intro k d l
    exact List.length_insertionSort (sortRelRaw k d) l
  · decide

end TaskApp
